import Mathlib

/-!
Verification of the Diff Model and Review-State Reconciliation Engine of the
revi code-review tool, as a shallow embedding in Lean 4.

The embedding covers:

* the diff data model (`DiffLine`, `Hunk`, `FileDiff`) shared between the
  desktop frontend and its backend (packages/shared);
* `pairLinesForSplit` from
  packages/desktop/src/components/diff/SplitView.tsx, translated directly
  from the TypeScript while-loop into structural recursion;
* the review-state store from
  packages/desktop/src/stores/reviewState.ts: the per-file mutators
  (`markViewed`, `markUnviewed`, `setFileCollapsed`, `setHunkCollapsed`,
  `setScrollPosition`), the `loadState` load/recovery flow, and the
  debounced `scheduleSave`/`saveState` persistence coordinator (the latter
  as a timed event machine, since the original relies on setTimeout and an
  isSaving flag);
* the backend pieces that live in the Tauri (Rust) layer and are not part
  of the available frontend sources: the `recover_state` command, the
  synthetic-diff rule of the diff builder, and the content hash.  These are
  modelled from the specification, as marked in their doc comments.

Line types in the TypeScript sources are the strings "added" / "deleted" /
"context"; we keep them as `String` so that the catch-all branch of
`pairLinesForSplit` (a line of unrecognized type is skipped) is faithfully
representable.
-/

namespace Revi

/-- Syntax highlighting span (packages/shared diff.ts).  The source field
named end is renamed stop because end is a reserved word in Lean. -/
structure HighlightSpan where
  start : Nat
  stop : Nat
  scope : String
deriving Repr, DecidableEq

/-- A single diff line (packages/shared diff.ts).  `type` is one of
"added", "deleted", "context" in well-formed data, but is kept as a string
as in the source. -/
structure DiffLine where
  type : String
  content : String
  oldLineNum : Option Nat := none
  newLineNum : Option Nat := none
  highlights : List HighlightSpan := []
deriving Repr, DecidableEq

/-- A diff hunk (packages/shared diff.ts). -/
structure Hunk where
  header : String
  oldStart : Nat
  oldLines : Nat
  newStart : Nat
  newLines : Nat
  lines : List DiffLine
deriving Repr, DecidableEq

/-- Diff stats (packages/shared diff.ts). -/
structure DiffStats where
  additions : Nat
  deletions : Nat
deriving Repr, DecidableEq

/-- Structured diff for one file (packages/shared diff.ts).  The content
hash is modelled as the hashed byte sequence itself (see `hashHunks`). -/
structure FileDiff where
  path : String
  hunks : List Hunk
  contentHash : List String
  stats : DiffStats
deriving Repr, DecidableEq

/-- A side-by-side line pair (SplitView.tsx).  One or both sides may be
absent. -/
structure LinePair where
  oldLine : Option DiffLine
  newLine : Option DiffLine
deriving Repr, DecidableEq

/-- Positional zip of a run of deletions against a run of additions
(the j-loop over maxLen in pairLinesForSplit): index j of the deletions is
paired with index j of the additions, the shorter side filled with null. -/
def zipFill : List DiffLine → List DiffLine → List LinePair
  | [], [] => []
  | d :: ds, [] => ⟨some d, none⟩ :: zipFill ds []
  | [], a :: as => ⟨none, some a⟩ :: zipFill [] as
  | d :: ds, a :: as => ⟨some d, some a⟩ :: zipFill ds as

/-- Whether a line is a deletion (the `lines[i].type === 'deleted'` test). -/
def isDeleted (l : DiffLine) : Bool := l.type = "deleted"

/-- Whether a line is an addition (the `lines[i].type === 'added'` test). -/
def isAdded (l : DiffLine) : Bool := l.type = "added"

/-- Pair lines for side-by-side split view
(pairLinesForSplit, SplitView.tsx).  Context lines appear on both sides; a
run of consecutive deletions is collected together with the run of
additions immediately following it and the two runs are zipped
positionally; a standalone addition has an empty left side; a line of any
other type is skipped. -/
def pairLinesForSplit (lines : List DiffLine) : List LinePair :=
  match lines with
  | [] => []
  | l :: rest =>
    if l.type = "context" then
      ⟨some l, some l⟩ :: pairLinesForSplit rest
    else if l.type = "deleted" then
      let deletions := (l :: rest).takeWhile isDeleted
      let afterDel := (l :: rest).dropWhile isDeleted
      let additions := afterDel.takeWhile isAdded
      let afterAdd := afterDel.dropWhile isAdded
      zipFill deletions additions ++ pairLinesForSplit afterAdd
    else if l.type = "added" then
      ⟨none, some l⟩ :: pairLinesForSplit rest
    else
      pairLinesForSplit rest
termination_by lines.length
decreasing_by
  · simp
  · rw [List.dropWhile_cons_of_pos (by simp [isDeleted]; assumption)]
    have h2 := (List.dropWhile_sublist (l := rest) (p := isDeleted)).length_le
    have h3 := (List.dropWhile_sublist (l := rest.dropWhile isDeleted)
      (p := isAdded)).length_le
    simp only [List.length_cons]
    omega
  · simp
  · simp

/-- takeWhile over an append whose first part satisfies the predicate
throughout collects the whole first part. -/
theorem takeWhile_append_of_all (p : α → Bool) (xs ys : List α)
    (h : ∀ x ∈ xs, p x = true) :
    (xs ++ ys).takeWhile p = xs ++ ys.takeWhile p := by
  induction xs with
  | nil => simp
  | cons x xs ih =>
    have hx : p x = true := h x (by simp)
    simp only [List.cons_append, List.takeWhile_cons, hx, if_true]
    rw [ih (fun a ha => h a (by simp [ha]))]

/-- dropWhile over an append whose first part satisfies the predicate
throughout drops the whole first part. -/
theorem dropWhile_append_of_all (p : α → Bool) (xs ys : List α)
    (h : ∀ x ∈ xs, p x = true) :
    (xs ++ ys).dropWhile p = ys.dropWhile p := by
  induction xs with
  | nil => simp
  | cons x xs ih =>
    have hx : p x = true := h x (by simp)
    simp only [List.cons_append, List.dropWhile_cons, hx, if_true]
    exact ih (fun a ha => h a (by simp [ha]))

/-- takeWhile is empty when the head (if any) fails the predicate. -/
theorem takeWhile_eq_nil_of_head (p : α → Bool) (ys : List α)
    (h : ∀ r, ys.head? = some r → p r = false) :
    ys.takeWhile p = [] := by
  cases ys with
  | nil => simp
  | cons y ys =>
    have hy : p y = false := h y (by simp)
    simp [List.takeWhile_cons, hy]

/-- dropWhile is the identity when the head (if any) fails the predicate. -/
theorem dropWhile_eq_self_of_head (p : α → Bool) (ys : List α)
    (h : ∀ r, ys.head? = some r → p r = false) :
    ys.dropWhile p = ys := by
  cases ys with
  | nil => simp
  | cons y ys =>
    have hy : p y = false := h y (by simp)
    simp [List.dropWhile_cons, hy]

/-- zipFill produces exactly max-length pairs. -/
theorem zipFill_length (ds as : List DiffLine) :
    (zipFill ds as).length = max ds.length as.length := by
  induction ds generalizing as with
  | nil =>
    induction as with
    | nil => simp [zipFill]
    | cons a as iha => simp [zipFill, iha]
  | cons d ds ih =>
    cases as with
    | nil =>
      have := ih []
      simp [zipFill] at this ⊢
      omega
    | cons a as =>
      have := ih as
      simp [zipFill] at this ⊢
      omega

/-- zipFill pairs index j of the deletions with index j of the additions,
with the shorter side absent. -/
theorem zipFill_get (ds as : List DiffLine) (j : Nat)
    (hj : j < max ds.length as.length) :
    (zipFill ds as)[j]? = some ⟨ds[j]?, as[j]?⟩ := by
  induction ds generalizing as j with
  | nil =>
    induction as generalizing j with
    | nil => simp at hj
    | cons a as iha =>
      cases j with
      | zero => simp [zipFill]
      | succ j =>
        simp only [zipFill]
        simp only [List.getElem?_cons_succ]
        by_cases hj2 : j < max (0 : Nat) as.length
        · have := iha j hj2
          simpa using this
        · simp at hj hj2
          omega
  | cons d ds ih =>
    cases as with
    | nil =>
      cases j with
      | zero => simp [zipFill]
      | succ j =>
        simp only [zipFill, List.getElem?_cons_succ]
        have hj2 : j < max ds.length ([] : List DiffLine).length := by
          simp at hj ⊢; omega
        have := ih [] j hj2
        simpa using this
    | cons a as =>
      cases j with
      | zero => simp [zipFill]
      | succ j =>
        simp only [zipFill, List.getElem?_cons_succ]
        have hj2 : j < max ds.length as.length := by
          simp at hj; omega
        exact ih as j hj2

/-- One unfolding of pairLinesForSplit at a deleted head: the maximal
deleted run and the following maximal added run are zipped positionally,
and pairing continues after both runs. -/
theorem pairLinesForSplit_runs (ds as rest : List DiffLine)
    (hne : ds ≠ [])
    (hds : ∀ d ∈ ds, isDeleted d = true)
    (has : ∀ a ∈ as, isAdded a = true)
    (hrest : ∀ r, rest.head? = some r → isDeleted r = false ∧ isAdded r = false) :
    pairLinesForSplit (ds ++ as ++ rest) =
      zipFill ds as ++ pairLinesForSplit rest := by
  obtain ⟨d, ds', rfl⟩ : ∃ d ds', ds = d :: ds' := by
    cases ds with
    | nil => exact absurd rfl hne
    | cons d ds' => exact ⟨d, ds', rfl⟩
  have hd : d.type = "deleted" := by
    have := hds d (by simp)
    simpa [isDeleted] using this
  have hnotctx : ¬d.type = "context" := by simp [hd]
  have htail : (as ++ rest).takeWhile isDeleted = [] := by
    apply takeWhile_eq_nil_of_head
    intro r hr
    cases as with
    | nil =>
      simp at hr
      have := hrest r hr
      exact this.1
    | cons a as' =>
      simp at hr
      have := has a (by simp)
      rw [← hr]
      simp only [isDeleted, isAdded] at this ⊢
      simp at this
      simp [this]
  have hdroptail : (as ++ rest).dropWhile isDeleted = as ++ rest := by
    apply dropWhile_eq_self_of_head
    intro r hr
    cases as with
    | nil =>
      simp at hr
      exact (hrest r hr).1
    | cons a as' =>
      simp at hr
      have := has a (by simp)
      rw [← hr]
      simp only [isDeleted, isAdded] at this ⊢
      simp at this
      simp [this]
  have htake : ((d :: ds') ++ as ++ rest).takeWhile isDeleted = d :: ds' := by
    rw [List.append_assoc, takeWhile_append_of_all isDeleted (d :: ds') (as ++ rest) hds,
      htail, List.append_nil]
  have hdrop : ((d :: ds') ++ as ++ rest).dropWhile isDeleted = as ++ rest := by
    rw [List.append_assoc, dropWhile_append_of_all isDeleted (d :: ds') (as ++ rest) hds,
      hdroptail]
  have htakeAdd : (as ++ rest).takeWhile isAdded = as := by
    rw [takeWhile_append_of_all isAdded as rest has,
      takeWhile_eq_nil_of_head isAdded rest (fun r hr => (hrest r hr).2),
      List.append_nil]
  have hdropAdd : (as ++ rest).dropWhile isAdded = rest := by
    rw [dropWhile_append_of_all isAdded as rest has,
      dropWhile_eq_self_of_head isAdded rest (fun r hr => (hrest r hr).2)]
  rw [List.cons_append, List.cons_append, pairLinesForSplit]
  simp only [hnotctx, if_false, hd, if_true]
  rw [← List.cons_append, ← List.cons_append, htake, hdrop, htakeAdd, hdropAdd]
  rw [if_neg (by decide)]

/-- Shorthand for a context line with given content. -/
def ctxLine (c : String) : DiffLine := { type := "context", content := c }

/-- Shorthand for a deleted line with given content. -/
def delLine (c : String) : DiffLine := { type := "deleted", content := c }

/-- Shorthand for an added line with given content. -/
def addLine (c : String) : DiffLine := { type := "added", content := c }

/-- C2: line pairing.  pairLinesForSplit pairs each context line with
itself on both sides; at a deleted line it collects the maximal run of
consecutive deleted lines and the maximal run of added lines immediately
following, zipping them positionally with the shorter side absent (null);
an added line with no immediately preceding deleted run is paired with an
absent left side; a line of an unrecognized type is skipped, advancing the
cursor by one; and on the input [context a, deleted b, deleted c, added x,
added y, added z] the result is [(a,a), (b,x), (c,y), (null,z)].  The
function is a pure Lean function, hence deterministic and free of side
effects. -/
theorem pairLinesForSplit_spec :
    (∀ l rest, l.type = "context" →
      pairLinesForSplit (l :: rest) = ⟨some l, some l⟩ :: pairLinesForSplit rest)
    ∧ (∀ ds as rest, ds ≠ [] → (∀ d ∈ ds, isDeleted d = true) →
      (∀ a ∈ as, isAdded a = true) →
      (∀ r, rest.head? = some r → isDeleted r = false ∧ isAdded r = false) →
      pairLinesForSplit (ds ++ as ++ rest) = zipFill ds as ++ pairLinesForSplit rest)
    ∧ (∀ ds as : List DiffLine, (zipFill ds as).length = max ds.length as.length
      ∧ ∀ j, j < max ds.length as.length →
        (zipFill ds as)[j]? = some ⟨ds[j]?, as[j]?⟩)
    ∧ (∀ l rest, l.type = "added" →
      pairLinesForSplit (l :: rest) = ⟨none, some l⟩ :: pairLinesForSplit rest)
    ∧ (∀ l rest, l.type ≠ "context" → l.type ≠ "deleted" → l.type ≠ "added" →
      pairLinesForSplit (l :: rest) = pairLinesForSplit rest)
    ∧ pairLinesForSplit [ctxLine "a", delLine "b", delLine "c",
        addLine "x", addLine "y", addLine "z"] =
      [⟨some (ctxLine "a"), some (ctxLine "a")⟩,
       ⟨some (delLine "b"), some (addLine "x")⟩,
       ⟨some (delLine "c"), some (addLine "y")⟩,
       ⟨none, some (addLine "z")⟩] := by
  refine ⟨?_, pairLinesForSplit_runs, ?_, ?_, ?_, ?_⟩
  · intro l rest h
    rw [pairLinesForSplit]
    simp [h]
  · intro ds as
    exact ⟨zipFill_length ds as, fun j hj => zipFill_get ds as j hj⟩
  · intro l rest h
    rw [pairLinesForSplit]
    simp [h]
  · intro l rest h1 h2 h3
    rw [pairLinesForSplit]
    simp [h1, h2, h3]
  · simp [pairLinesForSplit, zipFill, ctxLine, delLine, addLine, isDeleted,
      isAdded, List.takeWhile, List.dropWhile]

/-- Witness for C2: the run-decomposition clause applied at the concrete
input [deleted b, added x, added y, context d]. -/
theorem pairLinesForSplit_spec_witness :
    pairLinesForSplit [delLine "b", addLine "x", addLine "y", ctxLine "d"] =
      zipFill [delLine "b"] [addLine "x", addLine "y"]
        ++ pairLinesForSplit [ctxLine "d"] := by
  have h := pairLinesForSplit_spec.2.1 [delLine "b"] [addLine "x", addLine "y"]
    [ctxLine "d"] (by decide) (by decide) (by decide)
    (by
      intro r hr
      simp only [List.head?] at hr
      cases hr
      decide)
  simpa using h

/-! ## Review-state store (packages/desktop/src/stores/reviewState.ts) -/

/-- Collapse state of one file (packages/shared state.ts). -/
structure CollapseState where
  file : Bool
  hunks : List Nat
deriving Repr, DecidableEq

/-- Per-file review state (packages/shared state.ts). -/
structure FileState where
  viewed : Bool
  lastViewedSha : String
  contentHash : String
  diffStats : DiffStats
  collapseState : CollapseState
  scrollPosition : Nat
deriving Repr, DecidableEq

/-- DEFAULT_FILE_STATE from reviewState.ts. -/
def DEFAULT_FILE_STATE : FileState :=
  { viewed := false
    lastViewedSha := ""
    contentHash := ""
    diffStats := { additions := 0, deletions := 0 }
    collapseState := { file := false, hunks := [] }
    scrollPosition := 0 }

/-- DEFAULT_COLLAPSE_STATE from reviewState.ts. -/
def DEFAULT_COLLAPSE_STATE : CollapseState := { file := false, hunks := [] }

/-- The files map of the store: a JavaScript object keyed by file path,
embedded as a function from paths to optional entries. -/
def FilesMap : Type := String → Option FileState

/-- The slice of the zustand review-state store that the file-state
mutators read and write: the current baseSha and the files map.  Each
mutator in the source additionally calls scheduleSave, which is modelled
separately by the persistence coordinator machine below. -/
structure ReviewStore where
  baseSha : Option String
  files : FilesMap

/-- The object-spread update `\x7b...state.files, [path]: v\x7d`. -/
def updateFiles (files : FilesMap) (path : String) (v : FileState) : FilesMap :=
  fun q => if q = path then some v else files q

/-- markViewed from reviewState.ts: merge the existing entry (or the
default) and set viewed, lastViewedSha (the current baseSha, or the empty
string when unset), contentHash and diffStats. -/
def markViewed (s : ReviewStore) (path contentHash : String)
    (diffStats : DiffStats) : ReviewStore :=
  let prev := (s.files path).getD DEFAULT_FILE_STATE
  let entry := { prev with
    viewed := true
    lastViewedSha := s.baseSha.getD ""
    contentHash := contentHash
    diffStats := diffStats }
  { s with files := updateFiles s.files path entry }

/-- markUnviewed from reviewState.ts: if the path has no entry the state
is returned unchanged, otherwise only viewed is cleared. -/
def markUnviewed (s : ReviewStore) (path : String) : ReviewStore :=
  match s.files path with
  | none => s
  | some prev =>
    let entry := { prev with viewed := false }
    { s with files := updateFiles s.files path entry }

/-- setFileCollapsed from reviewState.ts. -/
def setFileCollapsed (s : ReviewStore) (path : String) (collapsed : Bool) :
    ReviewStore :=
  let prev := (s.files path).getD DEFAULT_FILE_STATE
  let entry := { prev with collapseState := { prev.collapseState with file := collapsed } }
  { s with files := updateFiles s.files path entry }

/-- First-occurrence deduplication, the semantics of iterating a
JavaScript Set built by insertion (`[...new Set(xs)]`). -/
def dedupFirstAux (seen : List Nat) : List Nat → List Nat
  | [] => []
  | x :: xs =>
    if x ∈ seen then dedupFirstAux seen xs
    else x :: dedupFirstAux (x :: seen) xs

/-- `[...new Set(xs)]`: keep the first occurrence of each element. -/
def dedupFirst (l : List Nat) : List Nat := dedupFirstAux [] l

/-- setHunkCollapsed from reviewState.ts: add the hunk index to (or remove
it from) the set of collapsed hunk indices of the path. -/
def setHunkCollapsed (s : ReviewStore) (path : String) (hunkIndex : Nat)
    (collapsed : Bool) : ReviewStore :=
  let current := ((s.files path).map (fun f => f.collapseState.hunks)).getD []
  let hunks :=
    if collapsed then dedupFirst (current ++ [hunkIndex])
    else current.filter (fun i => i ≠ hunkIndex)
  let prev := (s.files path).getD DEFAULT_FILE_STATE
  let entry := { prev with collapseState := { prev.collapseState with hunks := hunks } }
  { s with files := updateFiles s.files path entry }

/-- setScrollPosition from reviewState.ts. -/
def setScrollPosition (s : ReviewStore) (path : String) (position : Nat) :
    ReviewStore :=
  let prev := (s.files path).getD DEFAULT_FILE_STATE
  let entry := { prev with scrollPosition := position }
  { s with files := updateFiles s.files path entry }

/-- isViewed from reviewState.ts. -/
def isViewed (s : ReviewStore) (path : String) : Bool :=
  ((s.files path).map (fun f => f.viewed)).getD false

/-- getCollapseState from reviewState.ts. -/
def getCollapseState (s : ReviewStore) (path : String) : CollapseState :=
  ((s.files path).map (fun f => f.collapseState)).getD DEFAULT_COLLAPSE_STATE

/-- getScrollPosition from reviewState.ts. -/
def getScrollPosition (s : ReviewStore) (path : String) : Nat :=
  ((s.files path).map (fun f => f.scrollPosition)).getD 0

/-- C10 counterexample: the claim says a creating mutator applied to a
path with no entry yields the default FileState with only the mutated
field changed; but markViewed on a missing path additionally sets
lastViewedSha to the current baseSha.  With baseSha abc, the created entry
for f.ts is not the default entry with only viewed, contentHash and
diffStats changed (its lastViewedSha is abc, not the default empty
string). -/
theorem markViewed_lastViewedSha_counterexample :
    (markViewed { baseSha := some "abc", files := fun _ => none } "f.ts" "h1"
        { additions := 1, deletions := 2 }).files "f.ts" ≠
      some { DEFAULT_FILE_STATE with
              viewed := true
              contentHash := "h1"
              diffStats := { additions := 1, deletions := 2 } } := by
  decide

/-- C10 (amended): for a path p with no FileState entry, markUnviewed
leaves the files map unchanged; markViewed creates an entry that is the
default with viewed set, the supplied contentHash and diffStats recorded,
and additionally lastViewedSha set to the current baseSha (empty string
when baseSha is unset); setFileCollapsed, setHunkCollapsed and
setScrollPosition each create the default entry with only the mutated
field changed; and no mutator changes the entry of any other path. -/
theorem mutators_on_missing_path :
    (∀ s p, s.files p = none → ∀ q, (markUnviewed s p).files q = s.files q)
    ∧ (∀ s p h st, s.files p = none → (markViewed s p h st).files p =
        some { DEFAULT_FILE_STATE with
                viewed := true
                lastViewedSha := s.baseSha.getD ""
                contentHash := h
                diffStats := st })
    ∧ (∀ s p c, s.files p = none → (setFileCollapsed s p c).files p =
        some { DEFAULT_FILE_STATE with
                collapseState := { DEFAULT_COLLAPSE_STATE with file := c } })
    ∧ (∀ s p i c, s.files p = none → (setHunkCollapsed s p i c).files p =
        some { DEFAULT_FILE_STATE with
                collapseState := { DEFAULT_COLLAPSE_STATE with
                                    hunks := if c then [i] else [] } })
    ∧ (∀ s p pos, s.files p = none → (setScrollPosition s p pos).files p =
        some { DEFAULT_FILE_STATE with scrollPosition := pos })
    ∧ (∀ s p q, q ≠ p → ∀ h st i c pos,
        (markViewed s p h st).files q = s.files q
        ∧ (markUnviewed s p).files q = s.files q
        ∧ (setFileCollapsed s p c).files q = s.files q
        ∧ (setHunkCollapsed s p i c).files q = s.files q
        ∧ (setScrollPosition s p pos).files q = s.files q) := by
  refine ⟨?_, ?_, ?_, ?_, ?_, ?_⟩
  · intro s p hp q
    simp [markUnviewed, hp]
  · intro s p h st hp
    simp [markViewed, updateFiles, hp]
  · intro s p c hp
    simp [setFileCollapsed, updateFiles, hp, DEFAULT_FILE_STATE,
      DEFAULT_COLLAPSE_STATE]
  · intro s p i c hp
    cases c <;>
      simp [setHunkCollapsed, updateFiles, hp, dedupFirst, dedupFirstAux,
        DEFAULT_FILE_STATE, DEFAULT_COLLAPSE_STATE]
  · intro s p pos hp
    simp [setScrollPosition, updateFiles, hp]
  · intro s p q hq h st i c pos
    refine ⟨?_, ?_, ?_, ?_, ?_⟩
    · simp [markViewed, updateFiles, hq]
    · cases hsp : s.files p <;> simp [markUnviewed, hsp, updateFiles, hq]
    · simp [setFileCollapsed, updateFiles, hq]
    · simp [setHunkCollapsed, updateFiles, hq]
    · simp [setScrollPosition, updateFiles, hq]

/-- Witness for C10 (amended): setScrollPosition on an empty store creates
the default entry with only the scroll position changed, and markViewed on
another path leaves it alone. -/
theorem mutators_on_missing_path_witness :
    (setScrollPosition { baseSha := none, files := fun _ => none } "a.ts" 42).files
        "a.ts" = some { DEFAULT_FILE_STATE with scrollPosition := 42 }
    ∧ (markUnviewed { baseSha := none, files := fun _ => none } "a.ts").files
        "a.ts" = none :=
  ⟨mutators_on_missing_path.2.2.2.2.1
      { baseSha := none, files := fun _ => none } "a.ts" 42 rfl,
   mutators_on_missing_path.1
      { baseSha := none, files := fun _ => none } "a.ts" rfl "a.ts"⟩

/-! ## Persistence coordinator (scheduleSave / saveState, reviewState.ts)

The coordinator is the debounced-save machinery of reviewState.ts: a
module-level setTimeout handle (saveTimer), the SAVE_DEBOUNCE_MS = 500
debounce window, and the isSaving flag of saveState.  We embed it as a
timed event machine.  Events: a mutating operation calling scheduleSave at
time t (which clears any pending timer and arms a new one for t + 500); a
timer firing at its deadline t, which runs saveState synchronously - if a
write is in flight it merely re-schedules, otherwise it starts a write
(write start is the synchronous consequence of the timer firing in the
single-threaded source); and the in-flight write resolving or rejecting
(the finally clause clears isSaving in both cases).  A fire event whose
deadline is not the currently armed deadline models a timer that was
cancelled by clearTimeout: it does nothing.  The machine is modelled for a
loaded session (saveState's early return on null session fields is not
reachable then). -/

/-- SAVE_DEBOUNCE_MS from reviewState.ts. -/
def SAVE_DEBOUNCE_MS : Nat := 500

/-- State of the persistence coordinator: the armed debounce deadline (the
saveTimer handle), the isSaving flag, the number of writes currently in
flight, and the number of writes started so far. -/
structure CoordState where
  timer : Option Nat
  saving : Bool
  inFlight : Nat
  writes : Nat
deriving Repr, DecidableEq

/-- Events driving the coordinator. -/
inductive SaveEvent where
  | mutate (t : Nat)
  | fire (t : Nat)
  | complete (t : Nat)
  | fail (t : Nat)
deriving Repr, DecidableEq

/-- One step of the coordinator. -/
def coordStep (s : CoordState) : SaveEvent → CoordState
  | .mutate t => { s with timer := some (t + SAVE_DEBOUNCE_MS) }
  | .fire t =>
    if s.timer = some t then
      if s.saving then { s with timer := some (t + SAVE_DEBOUNCE_MS) }
      else { s with timer := none, saving := true,
                    inFlight := s.inFlight + 1, writes := s.writes + 1 }
    else s
  | .complete _ =>
    if s.saving then { s with saving := false, inFlight := s.inFlight - 1 }
    else s
  | .fail _ =>
    if s.saving then { s with saving := false, inFlight := s.inFlight - 1 }
    else s

/-- The initial coordinator state: no timer armed, nothing in flight. -/
def initCoord : CoordState :=
  { timer := none, saving := false, inFlight := 0, writes := 0 }

/-- Run the coordinator from the initial state over an event trace. -/
def coordRun (events : List SaveEvent) : CoordState :=
  events.foldl coordStep initCoord

/-- A state is reachable when some event trace leads to it. -/
def CoordReachable (s : CoordState) : Prop := ∃ es, coordRun es = s

/-- The in-flight count always mirrors the isSaving flag. -/
theorem coordStep_inv (s : CoordState) (e : SaveEvent)
    (h : s.inFlight = if s.saving then 1 else 0) :
    (coordStep s e).inFlight = if (coordStep s e).saving then 1 else 0 := by
  cases e with
  | mutate t => simpa [coordStep] using h
  | fire t =>
    by_cases h1 : s.timer = some t
    · by_cases h2 : s.saving = true
      · simp [coordStep, h1, h2] at h ⊢
        omega
      · simp at h2
        simp [coordStep, h1, h2] at h ⊢
        omega
    · simpa [coordStep, h1] using h
  | complete t =>
    by_cases h2 : s.saving = true
    · simp [coordStep, h2] at h ⊢
      omega
    · simp at h2
      simpa [coordStep, h2] using h
  | fail t =>
    by_cases h2 : s.saving = true
    · simp [coordStep, h2] at h ⊢
      omega
    · simp at h2
      simpa [coordStep, h2] using h

/-- The invariant holds along every run. -/
theorem coordRun_inv (es : List SaveEvent) :
    (coordRun es).inFlight = if (coordRun es).saving then 1 else 0 := by
  suffices h : ∀ s, s.inFlight = (if s.saving then 1 else 0) →
      (es.foldl coordStep s).inFlight =
        if (es.foldl coordStep s).saving then 1 else 0 by
    exact h initCoord (by simp [initCoord])
  induction es with
  | nil => intro s hs; simpa using hs
  | cons e es ih =>
    intro s hs
    exact ih (coordStep s e) (coordStep_inv s e hs)

/-- C4: at-most-one-in-flight write invariant.  In every reachable state
of the persistence coordinator (under schedule, timer fire with its
synchronous write start, write complete and write fail events), at most
one persistence write is in flight. -/
theorem at_most_one_in_flight (s : CoordState) (h : CoordReachable s) :
    s.inFlight ≤ 1 := by
  obtain ⟨es, rfl⟩ := h
  have := coordRun_inv es
  by_cases hs : (coordRun es).saving <;> simp [hs] at this <;> omega

/-- Witness for C4: the state after one scheduled save, its fire, an
overlapping mutation and the completion is reachable and has at most one
write in flight. -/
theorem at_most_one_in_flight_witness :
    (coordRun [.mutate 0, .fire 500, .mutate 600, .complete 700]).inFlight ≤ 1 :=
  at_most_one_in_flight _ ⟨[.mutate 0, .fire 500, .mutate 600, .complete 700], rfl⟩

/-- A fire whose deadline is not the armed one models a timer cancelled by
clearTimeout: it does nothing. -/
theorem coordStep_fire_stale (s : CoordState) (t : Nat)
    (h : ¬s.timer = some t) : coordStep s (.fire t) = s := by
  simp [coordStep, h]

/-- A fire at the armed deadline with no write in flight starts a write. -/
theorem coordStep_fire_hit_idle (s : CoordState) (t : Nat)
    (h1 : s.timer = some t) (h2 : s.saving = false) :
    coordStep s (.fire t) =
      { s with timer := none, saving := true,
               inFlight := s.inFlight + 1, writes := s.writes + 1 } := by
  simp [coordStep, h1, h2]

set_option maxRecDepth 8000

/-- C3: debounced save coalescing.  Scheduling a save at time t arms the
timer for t + 500 whatever its previous state (a newly scheduled save
cancels and replaces any pending not-yet-fired timer; each of the five
mutating operations of the store calls scheduleSave and hence takes this
step), and five mutation calls inside one debounce window - the cancelled
deadlines firing as no-ops, the last deadline firing for real - produce
exactly one persisted write once the timer settles. -/
theorem debounced_save_coalescing :
    (∀ s t, (coordStep s (.mutate t)).timer = some (t + SAVE_DEBOUNCE_MS))
    ∧ (∀ t1 t2 t3 t4 t5, t1 < t2 → t2 < t3 → t3 < t4 → t4 < t5 →
        t5 < t1 + SAVE_DEBOUNCE_MS →
        (coordRun [.mutate t1, .mutate t2, .mutate t3, .mutate t4, .mutate t5,
          .fire (t1 + SAVE_DEBOUNCE_MS), .fire (t2 + SAVE_DEBOUNCE_MS),
          .fire (t3 + SAVE_DEBOUNCE_MS), .fire (t4 + SAVE_DEBOUNCE_MS),
          .fire (t5 + SAVE_DEBOUNCE_MS),
          .complete (t5 + SAVE_DEBOUNCE_MS + 20)]).writes = 1) := by
  constructor
  · intro s t
    simp [coordStep]
  · intro t1 t2 t3 t4 t5 h12 h23 h34 h45 _hwin
    have h5 : List.foldl coordStep initCoord
        [SaveEvent.mutate t1, .mutate t2, .mutate t3, .mutate t4, .mutate t5] =
        { timer := some (t5 + SAVE_DEBOUNCE_MS), saving := false,
          inFlight := 0, writes := 0 } := rfl
    show (List.foldl coordStep initCoord
        ([SaveEvent.mutate t1, .mutate t2, .mutate t3, .mutate t4, .mutate t5] ++
         [.fire (t1 + SAVE_DEBOUNCE_MS), .fire (t2 + SAVE_DEBOUNCE_MS),
          .fire (t3 + SAVE_DEBOUNCE_MS), .fire (t4 + SAVE_DEBOUNCE_MS),
          .fire (t5 + SAVE_DEBOUNCE_MS),
          .complete (t5 + SAVE_DEBOUNCE_MS + 20)])).writes = 1
    rw [List.foldl_append, h5]
    rw [List.foldl_cons, coordStep_fire_stale _ _ (by simp; omega)]
    rw [List.foldl_cons, coordStep_fire_stale _ _ (by simp; omega)]
    rw [List.foldl_cons, coordStep_fire_stale _ _ (by simp; omega)]
    rw [List.foldl_cons, coordStep_fire_stale _ _ (by simp; omega)]
    rw [List.foldl_cons, coordStep_fire_hit_idle _ _ rfl rfl]
    simp [coordStep]

/-- Witness for C3: five mutations at 0, 10, 20, 30 and 100 ms coalesce
into a single write. -/
theorem debounced_save_coalescing_witness :
    (coordRun [.mutate 0, .mutate 10, .mutate 20, .mutate 30, .mutate 100,
      .fire (0 + SAVE_DEBOUNCE_MS), .fire (10 + SAVE_DEBOUNCE_MS),
      .fire (20 + SAVE_DEBOUNCE_MS), .fire (30 + SAVE_DEBOUNCE_MS),
      .fire (100 + SAVE_DEBOUNCE_MS),
      .complete (100 + SAVE_DEBOUNCE_MS + 20)]).writes = 1 :=
  debounced_save_coalescing.2 0 10 20 30 100 (by decide) (by decide) (by decide)
    (by decide) (by decide)

/-- C5: no lost write under overlap.  After a write starts at the fired
deadline, a mutation arriving while the write is in flight is not
dropped: it leaves the re-armed timer pending, exactly one write has
happened up to the completion of the in-flight write, and exactly one
additional write happens afterwards - both when the in-flight write
completes before the re-armed deadline and when that deadline fires while
the write is still in flight (in which case saveState defers once more and
the additional write starts on the following cycle). -/
theorem no_lost_write_under_overlap (t0 t1 tc td tc2 td2 : Nat)
    (h01 : t0 + SAVE_DEBOUNCE_MS ≤ t1)
    (h1c : t1 ≤ tc) (hcd : tc < t1 + SAVE_DEBOUNCE_MS)
    (hd : t1 + SAVE_DEBOUNCE_MS ≤ td)
    (h2c : t1 + SAVE_DEBOUNCE_MS ≤ tc2) (hc2 : tc2 < t1 + 2 * SAVE_DEBOUNCE_MS)
    (hd2 : t1 + 2 * SAVE_DEBOUNCE_MS ≤ td2) :
    (coordRun [.mutate t0, .fire (t0 + SAVE_DEBOUNCE_MS), .mutate t1]).saving = true
    ∧ (coordRun [.mutate t0, .fire (t0 + SAVE_DEBOUNCE_MS), .mutate t1]).timer =
        some (t1 + SAVE_DEBOUNCE_MS)
    ∧ (coordRun [.mutate t0, .fire (t0 + SAVE_DEBOUNCE_MS), .mutate t1,
        .complete tc]).writes = 1
    ∧ (coordRun [.mutate t0, .fire (t0 + SAVE_DEBOUNCE_MS), .mutate t1,
        .complete tc, .fire (t1 + SAVE_DEBOUNCE_MS), .complete td]).writes = 2
    ∧ (coordRun [.mutate t0, .fire (t0 + SAVE_DEBOUNCE_MS), .mutate t1,
        .fire (t1 + SAVE_DEBOUNCE_MS), .complete tc2,
        .fire (t1 + SAVE_DEBOUNCE_MS + SAVE_DEBOUNCE_MS), .complete td2]).writes
        = 2 := by
  refine ⟨?_, ?_, ?_, ?_, ?_⟩ <;>
    simp [coordRun, coordStep, List.foldl, initCoord]

/-- Witness for C5: a save fires at 500, a mutation arrives at 600 while
the write is in flight, the write completes at 700, and exactly one more
write happens at 1100; likewise on the deferred-again path. -/
theorem no_lost_write_under_overlap_witness :
    (coordRun [.mutate 0, .fire (0 + SAVE_DEBOUNCE_MS), .mutate 600,
      .complete 700, .fire (600 + SAVE_DEBOUNCE_MS), .complete 1200]).writes = 2 :=
  (no_lost_write_under_overlap 0 600 700 1200 1300 1700 (by decide) (by decide)
    (by decide) (by decide) (by decide) (by decide) (by decide)).2.2.2.1

/-! ## Session load and fuzzy recovery (loadState, reviewState.ts) -/

/-- UI snapshot written with every persisted state (reviewState.ts writes
the fixed values split / 280 / visible). -/
structure UIState where
  mode : String
  sidebarWidth : Nat
  sidebarVisible : Bool
deriving Repr, DecidableEq

/-- A persisted review-state blob (packages/shared state.ts), keyed on
disk by the (baseSha, headSha) pair.  The files map is embedded as an
association list with distinct keys. -/
structure PersistedState where
  version : Nat
  sessionId : String
  baseSha : String
  headSha : String
  files : List (String × FileState)
  ui : UIState
deriving Repr, DecidableEq

/-- An entry of the freshly computed file list handed to loadState
(path, contentHash, additions, deletions). -/
structure NewFile where
  path : String
  contentHash : String
  additions : Nat
  deletions : Nat
deriving Repr, DecidableEq

/-- One per-path result of the backend recover_state command, as declared
by the invoke result type in reviewState.ts lines 234-243. -/
structure RecoveredFile where
  viewed : Bool
  changedSinceViewed : Bool
  oldStats : DiffStats
  newStats : DiffStats
  scrollPosition : Nat
  collapseState : CollapseState
deriving Repr, DecidableEq

/-- The result of the backend recover_state command. -/
structure RecoveredState where
  files : List (String × RecoveredFile)
  recoveredFrom : String
deriving Repr, DecidableEq

/-- Recovery info surfaced to the UI for a changed file
(FileRecoveryInfo, reviewState.ts lines 8-12). -/
structure FileRecoveryInfo where
  changedSinceViewed : Bool
  oldStats : DiffStats
  newStats : DiffStats
deriving Repr, DecidableEq

/-- The slice of the store that loadState writes before returning:
the files map, the recovery info map and the isLoaded flag. -/
structure LoadOutcome where
  files : List (String × FileState)
  recoveryInfo : List (String × FileRecoveryInfo)
  isLoaded : Bool
deriving Repr, DecidableEq

/-- First-match association-list lookup, the semantics of reading a
JavaScript object built left to right with distinct keys. -/
def alookup {β : Type} : List (String × β) → String → Option β
  | [], _ => none
  | (k, v) :: rest, key => if key = k then some v else alookup rest key

/-- Modelled from the spec: per-path classification of the fuzzy recovery
engine.  The recover_state command is implemented in the Tauri Rust
backend, which is not among the available sources (only its invocation and
result type in reviewState.ts are).  Following the specification: a path
with no entry in the predecessor blob is left as a fresh, unviewed state;
a path whose stored contentHash equals the newly computed one carries
viewed=true and collapseState/scrollPosition forward with no change flag;
a path whose stored hash differs is forced unviewed with
changedSinceViewed=true and old/new stats recorded, still carrying
collapseState/scrollPosition forward. -/
def recoverEntry (pred : PersistedState) (x : NewFile) : RecoveredFile :=
  match alookup pred.files x.path with
  | none =>
    { viewed := false, changedSinceViewed := false
      oldStats := { additions := 0, deletions := 0 }
      newStats := { additions := x.additions, deletions := x.deletions }
      scrollPosition := 0, collapseState := DEFAULT_COLLAPSE_STATE }
  | some old =>
    if old.contentHash = x.contentHash then
      { viewed := true, changedSinceViewed := false
        oldStats := old.diffStats
        newStats := { additions := x.additions, deletions := x.deletions }
        scrollPosition := old.scrollPosition, collapseState := old.collapseState }
    else
      { viewed := false, changedSinceViewed := true
        oldStats := old.diffStats
        newStats := { additions := x.additions, deletions := x.deletions }
        scrollPosition := old.scrollPosition, collapseState := old.collapseState }

/-- Modelled from the spec: the recover_state backend command.  For every
path of the new file list it emits the classification of recoverEntry;
paths present only in the predecessor blob are dropped (the output is
keyed by the new file list alone). -/
def recover_state (pred : PersistedState) (newFiles : List NewFile) :
    RecoveredState :=
  { files := newFiles.map (fun x => (x.path, recoverEntry pred x))
    recoveredFrom := pred.baseSha ++ ".." ++ pred.headSha }

/-- The FileState built by the loadState recovery loop for one recovered
entry (reviewState.ts lines 260-267): viewed and collapse/scroll from the
recovery result, lastViewedSha set to the current baseSha, contentHash
left empty, diffStats set to the new stats. -/
def fileStateOfRecovered (baseSha : String) (r : RecoveredFile) : FileState :=
  { viewed := r.viewed
    lastViewedSha := baseSha
    contentHash := ""
    diffStats := r.newStats
    collapseState := r.collapseState
    scrollPosition := r.scrollPosition }

/-- The FileRecoveryInfo recorded by the loadState recovery loop for a
changed entry (reviewState.ts lines 268-274). -/
def recoveryInfoOfRecovered (r : RecoveredFile) : FileRecoveryInfo :=
  { changedSinceViewed := true, oldStats := r.oldStats, newStats := r.newStats }

/-- loadState from reviewState.ts, as a function of the outcomes of the
two backend invocations (load_review_state and recover_state; a thrown
invocation is an error value) and of the optional new file list.  The
source logs failures to the console and never rethrows: every branch
returns a normal outcome with isLoaded set. -/
def loadState (loadResult : Except String (Option PersistedState))
    (newFiles : Option (List NewFile))
    (recoverResult : Except String (Option RecoveredState))
    (baseSha : String) : LoadOutcome :=
  match loadResult with
  | .error _ => { files := [], recoveryInfo := [], isLoaded := true }
  | .ok (some persisted) =>
    { files := persisted.files, recoveryInfo := [], isLoaded := true }
  | .ok none =>
    match newFiles with
    | some nf =>
      if nf.isEmpty then { files := [], recoveryInfo := [], isLoaded := true }
      else
        match recoverResult with
        | .error _ => { files := [], recoveryInfo := [], isLoaded := true }
        | .ok none => { files := [], recoveryInfo := [], isLoaded := true }
        | .ok (some recovered) =>
          { files := recovered.files.map
              (fun pr => (pr.1, fileStateOfRecovered baseSha pr.2))
            recoveryInfo := recovered.files.filterMap
              (fun pr =>
                if pr.2.changedSinceViewed then
                  some (pr.1, recoveryInfoOfRecovered pr.2)
                else none)
            isLoaded := true }
    | none => { files := [], recoveryInfo := [], isLoaded := true }

/-- C6: exact-match load.  When a persisted blob exists for the current
(baseSha, headSha) pair, loadState loads its files map verbatim, reaches
the loaded terminal state, and produces no recovery info; the outcome does
not depend on the recovery invocation at all (no fuzzy recovery is
attempted). -/
theorem exact_match_load (ps : PersistedState)
    (newFiles : Option (List NewFile))
    (recoverResult : Except String (Option RecoveredState)) (baseSha : String) :
    loadState (.ok (some ps)) newFiles recoverResult baseSha =
      { files := ps.files, recoveryInfo := [], isLoaded := true } := rfl

/-- C7: recovery failure degrades gracefully.  An error reading or
parsing the persisted blob, and an error from the recovery invocation,
each yield a fresh empty (fully unviewed) files map, no recovery info, and
the loaded terminal state; loadState returns normally in both cases (the
error is only logged, never surfaced). -/
theorem recovery_failure_degrades (e1 e2 : String)
    (newFiles : Option (List NewFile)) (nf : List NewFile)
    (recoverResult : Except String (Option RecoveredState)) (baseSha : String) :
    loadState (.error e1) newFiles recoverResult baseSha =
      { files := [], recoveryInfo := [], isLoaded := true }
    ∧ loadState (.ok none) (some nf) (.error e2) baseSha =
      { files := [], recoveryInfo := [], isLoaded := true } := by
  refine ⟨rfl, ?_⟩
  cases nf <;> rfl

/-- Lookup misses a keyed map when no element has the key. -/
theorem alookup_map_eq_none {γ β : Type} (xs : List γ) (key : γ → String)
    (F : γ → β) (q : String) (hq : ∀ y ∈ xs, key y ≠ q) :
    alookup (xs.map fun y => (key y, F y)) q = none := by
  induction xs with
  | nil => rfl
  | cons y ys ih =>
    simp only [List.map_cons, alookup]
    rw [if_neg (fun h => hq y (by simp) h.symm)]
    exact ih (fun z hz => hq z (by simp [hz]))

/-- Lookup in a keyed map with distinct keys finds the element's image. -/
theorem alookup_map_of_mem {γ β : Type} (xs : List γ) (key : γ → String)
    (F : γ → β) (x : γ) (hx : x ∈ xs) (hnodup : (xs.map key).Nodup) :
    alookup (xs.map fun y => (key y, F y)) (key x) = some (F x) := by
  induction xs with
  | nil => cases hx
  | cons y ys ih =>
    rw [List.map_cons] at hnodup
    obtain ⟨hy, hnd⟩ := List.nodup_cons.mp hnodup
    simp only [List.map_cons, alookup]
    by_cases hxy : key x = key y
    · rcases List.mem_cons.mp hx with rfl | hx2
      · simp
      · exact absurd (hxy ▸ List.mem_map.mpr ⟨x, hx2, rfl⟩) hy
    · rw [if_neg hxy]
      rcases List.mem_cons.mp hx with rfl | hx2
      · exact absurd rfl hxy
      · exact ih hx2 hnd

/-- Lookup misses a keyed filtered map when no element has the key. -/
theorem alookup_filterMap_eq_none {γ β : Type} (xs : List γ)
    (key : γ → String) (P : γ → Bool) (G : γ → β) (q : String)
    (hq : ∀ y ∈ xs, key y ≠ q) :
    alookup (xs.filterMap fun y =>
      if P y then some (key y, G y) else none) q = none := by
  induction xs with
  | nil => rfl
  | cons y ys ih =>
    simp only [List.filterMap_cons]
    by_cases hPy : P y
    · simp only [hPy, if_true, alookup]
      rw [if_neg (fun h => hq y (by simp) h.symm)]
      exact ih (fun z hz => hq z (by simp [hz]))
    · simp only [hPy, if_false]
      exact ih (fun z hz => hq z (by simp [hz]))

/-- Lookup in a keyed filtered map with distinct keys finds the image of
the element when its guard holds, and nothing when it does not. -/
theorem alookup_filterMap_of_mem {γ β : Type} (xs : List γ)
    (key : γ → String) (P : γ → Bool) (G : γ → β) (x : γ)
    (hx : x ∈ xs) (hnodup : (xs.map key).Nodup) :
    alookup (xs.filterMap fun y =>
        if P y then some (key y, G y) else none) (key x) =
      if P x then some (G x) else none := by
  induction xs with
  | nil => cases hx
  | cons y ys ih =>
    rw [List.map_cons] at hnodup
    obtain ⟨hy, hnd⟩ := List.nodup_cons.mp hnodup
    simp only [List.filterMap_cons]
    by_cases hPy : P y
    · simp only [hPy, if_true, alookup]
      by_cases hxy : key x = key y
      · rcases List.mem_cons.mp hx with rfl | hx2
        · simp [hPy]
        · exact absurd (hxy ▸ List.mem_map.mpr ⟨x, hx2, rfl⟩) hy
      · rw [if_neg hxy]
        rcases List.mem_cons.mp hx with rfl | hx2
        · exact absurd rfl hxy
        · exact ih hx2 hnd
    · simp only [hPy, if_false]
      rcases List.mem_cons.mp hx with rfl | hx2
      · simp only [hPy, if_false]
        exact alookup_filterMap_eq_none ys key P G (key x)
          (fun z hz h => hy (h ▸ List.mem_map.mpr ⟨z, hz, rfl⟩))
      · exact ih hx2 hnd

/-- The loadState outcome when no exact-match blob exists, the new file
list is known, and the recovery invocation succeeds with the modelled
recover_state result. -/
def recoveredLoad (pred : PersistedState) (nf : List NewFile)
    (baseSha : String) : LoadOutcome :=
  loadState (.ok none) (some nf) (.ok (some (recover_state pred nf))) baseSha

/-- The files map of a recovered load lists exactly the new file list,
each path mapped through the recovery classification. -/
theorem recoveredLoad_files (pred : PersistedState) (nf : List NewFile)
    (baseSha : String) (hne : nf ≠ []) :
    (recoveredLoad pred nf baseSha).files =
      nf.map (fun x =>
        (x.path, fileStateOfRecovered baseSha (recoverEntry pred x))) := by
  have hemp : nf.isEmpty = false := by
    cases nf
    · exact absurd rfl hne
    · rfl
  simp [recoveredLoad, loadState, hemp, recover_state, List.map_map,
    Function.comp]

/-- The recovery-info map of a recovered load keeps exactly the new paths
whose classification is flagged changed. -/
theorem recoveredLoad_recoveryInfo (pred : PersistedState)
    (nf : List NewFile) (baseSha : String) (hne : nf ≠ []) :
    (recoveredLoad pred nf baseSha).recoveryInfo =
      nf.filterMap (fun x =>
        if (recoverEntry pred x).changedSinceViewed then
          some (x.path, recoveryInfoOfRecovered (recoverEntry pred x))
        else none) := by
  have hemp : nf.isEmpty = false := by
    cases nf
    · exact absurd rfl hne
    · rfl
  simp only [recoveredLoad, loadState, hemp, recover_state, Bool.false_eq_true,
    if_false, List.filterMap_map]
  rfl

/-- C1: fuzzy recovery case analysis.  When no exact-match blob exists and
a predecessor blob is used, then for every path of the new file list: a
path with no predecessor entry gets a fresh, unviewed FileState (and no
recovery info); a path whose stored contentHash equals the newly computed
one gets viewed=true with collapseState and scrollPosition carried forward
and no FileRecovery recorded; a path whose stored hash differs gets
viewed=false with collapseState and scrollPosition still carried forward
and a FileRecovery with changedSinceViewed, oldStats and newStats
recorded; and every path present only in the predecessor is dropped with
no carry-forward. -/
theorem fuzzy_recovery_cases (pred : PersistedState) (nf : List NewFile)
    (baseSha : String) (f : NewFile) (hf : f ∈ nf)
    (hnodup : (nf.map (fun x => x.path)).Nodup) :
    (alookup pred.files f.path = none →
      alookup (recoveredLoad pred nf baseSha).files f.path = some
        { viewed := false, lastViewedSha := baseSha, contentHash := ""
          diffStats := { additions := f.additions, deletions := f.deletions }
          collapseState := DEFAULT_COLLAPSE_STATE, scrollPosition := 0 }
      ∧ alookup (recoveredLoad pred nf baseSha).recoveryInfo f.path = none)
    ∧ (∀ old, alookup pred.files f.path = some old →
        old.contentHash = f.contentHash →
      alookup (recoveredLoad pred nf baseSha).files f.path = some
        { viewed := true, lastViewedSha := baseSha, contentHash := ""
          diffStats := { additions := f.additions, deletions := f.deletions }
          collapseState := old.collapseState
          scrollPosition := old.scrollPosition }
      ∧ alookup (recoveredLoad pred nf baseSha).recoveryInfo f.path = none)
    ∧ (∀ old, alookup pred.files f.path = some old →
        old.contentHash ≠ f.contentHash →
      alookup (recoveredLoad pred nf baseSha).files f.path = some
        { viewed := false, lastViewedSha := baseSha, contentHash := ""
          diffStats := { additions := f.additions, deletions := f.deletions }
          collapseState := old.collapseState
          scrollPosition := old.scrollPosition }
      ∧ alookup (recoveredLoad pred nf baseSha).recoveryInfo f.path = some
          { changedSinceViewed := true, oldStats := old.diffStats
            newStats := { additions := f.additions, deletions := f.deletions } })
    ∧ (∀ q, (∀ g ∈ nf, g.path ≠ q) →
      alookup (recoveredLoad pred nf baseSha).files q = none
      ∧ alookup (recoveredLoad pred nf baseSha).recoveryInfo q = none) := by
  have hne : nf ≠ [] := List.ne_nil_of_mem hf
  have hfiles := recoveredLoad_files pred nf baseSha hne
  have hinfo := recoveredLoad_recoveryInfo pred nf baseSha hne
  have hmap := alookup_map_of_mem nf (fun x => x.path)
    (fun x => fileStateOfRecovered baseSha (recoverEntry pred x)) f hf hnodup
  have hfm := alookup_filterMap_of_mem nf (fun x => x.path)
    (fun x => (recoverEntry pred x).changedSinceViewed)
    (fun x => recoveryInfoOfRecovered (recoverEntry pred x)) f hf hnodup
  refine ⟨?_, ?_, ?_, ?_⟩
  · intro h
    rw [hfiles, hinfo]
    constructor
    · rw [hmap]
      simp [fileStateOfRecovered, recoverEntry, h]
    · rw [hfm]
      simp [recoverEntry, h]
  · intro old h hh
    rw [hfiles, hinfo]
    constructor
    · rw [hmap]
      simp [fileStateOfRecovered, recoverEntry, h, hh]
    · rw [hfm]
      simp [recoverEntry, h, hh]
  · intro old h hh
    rw [hfiles, hinfo]
    constructor
    · rw [hmap]
      simp [fileStateOfRecovered, recoverEntry, h, hh]
    · rw [hfm]
      simp [recoverEntry, recoveryInfoOfRecovered, h, hh]
  · intro q hq
    rw [hfiles, hinfo]
    exact ⟨alookup_map_eq_none nf (fun x => x.path) _ q hq,
      alookup_filterMap_eq_none nf (fun x => x.path) _ _ q hq⟩

/-- A concrete predecessor blob for exercising the recovery cases: one
path whose hash will match, one whose hash will differ, one that will be
gone from the new list. -/
def predBlob : PersistedState :=
  { version := 1, sessionId := "s1", baseSha := "b0", headSha := "h0"
    files :=
      [("same.ts",
        { viewed := true, lastViewedSha := "b0", contentHash := "H1"
          diffStats := { additions := 3, deletions := 1 }
          collapseState := { file := true, hunks := [2] }
          scrollPosition := 120 }),
       ("changed.ts",
        { viewed := true, lastViewedSha := "b0", contentHash := "OLD"
          diffStats := { additions := 12, deletions := 3 }
          collapseState := { file := false, hunks := [0] }
          scrollPosition := 40 }),
       ("gone.ts", DEFAULT_FILE_STATE)]
    ui := { mode := "split", sidebarWidth := 280, sidebarVisible := true } }

/-- The concrete new file list for the recovery witness: the matching
path, the changed path, and a brand-new path. -/
def newList : List NewFile :=
  [{ path := "same.ts", contentHash := "H1", additions := 3, deletions := 1 },
   { path := "changed.ts", contentHash := "NEW", additions := 15, deletions := 3 },
   { path := "new.ts", contentHash := "H9", additions := 5, deletions := 0 }]

/-- Witness for C1: on the concrete predecessor and new list, the fresh
path gets an unviewed default entry, the hash-equal path is credited
viewed with collapse and scroll carried forward and no recovery info, the
hash-differing path is forced unviewed with carried-forward collapse and
scroll plus a recovery record of old and new stats, and the predecessor-only
path is dropped. -/
theorem fuzzy_recovery_cases_witness :
    (alookup (recoveredLoad predBlob newList "b1").files "new.ts" = some
      { viewed := false, lastViewedSha := "b1", contentHash := ""
        diffStats := { additions := 5, deletions := 0 }
        collapseState := DEFAULT_COLLAPSE_STATE, scrollPosition := 0 }
    ∧ alookup (recoveredLoad predBlob newList "b1").recoveryInfo "new.ts" = none)
    ∧ (alookup (recoveredLoad predBlob newList "b1").files "same.ts" = some
      { viewed := true, lastViewedSha := "b1", contentHash := ""
        diffStats := { additions := 3, deletions := 1 }
        collapseState := { file := true, hunks := [2] }
        scrollPosition := 120 }
    ∧ alookup (recoveredLoad predBlob newList "b1").recoveryInfo "same.ts" = none)
    ∧ (alookup (recoveredLoad predBlob newList "b1").files "changed.ts" = some
      { viewed := false, lastViewedSha := "b1", contentHash := ""
        diffStats := { additions := 15, deletions := 3 }
        collapseState := { file := false, hunks := [0] }
        scrollPosition := 40 }
    ∧ alookup (recoveredLoad predBlob newList "b1").recoveryInfo "changed.ts" =
      some { changedSinceViewed := true
             oldStats := { additions := 12, deletions := 3 }
             newStats := { additions := 15, deletions := 3 } })
    ∧ (alookup (recoveredLoad predBlob newList "b1").files "gone.ts" = none
    ∧ alookup (recoveredLoad predBlob newList "b1").recoveryInfo "gone.ts" = none) :=
  ⟨(fuzzy_recovery_cases predBlob newList "b1"
      { path := "new.ts", contentHash := "H9", additions := 5, deletions := 0 }
      (by decide) (by decide)).1 (by decide),
   (fuzzy_recovery_cases predBlob newList "b1"
      { path := "same.ts", contentHash := "H1", additions := 3, deletions := 1 }
      (by decide) (by decide)).2.1
      { viewed := true, lastViewedSha := "b0", contentHash := "H1"
        diffStats := { additions := 3, deletions := 1 }
        collapseState := { file := true, hunks := [2] }
        scrollPosition := 120 } (by decide) (by decide),
   (fuzzy_recovery_cases predBlob newList "b1"
      { path := "changed.ts", contentHash := "NEW", additions := 15, deletions := 3 }
      (by decide) (by decide)).2.2.1
      { viewed := true, lastViewedSha := "b0", contentHash := "OLD"
        diffStats := { additions := 12, deletions := 3 }
        collapseState := { file := false, hunks := [0] }
        scrollPosition := 40 } (by decide) (by decide),
   (fuzzy_recovery_cases predBlob newList "b1"
      { path := "same.ts", contentHash := "H1", additions := 3, deletions := 1 }
      (by decide) (by decide)).2.2.2 "gone.ts" (by decide)⟩

/-! ## Diff builder and content hash

The diff builder and the content hash live in the Tauri Rust backend
(get_file_diff, utils/hash), which is not among the available sources;
only the shared TypeScript result types and the design documents are.
The definitions below are therefore modelled from the specification. -/

/-- Modelled from the spec: contentHash is the digest of the ordered
concatenation of each hunk header plus each line's type tag and content.
The SHA-256 digest of the backend is abstracted as the serialized token
sequence itself; the serialization is injective in the hashed content, so
equal inputs give equal hashes and the single-line sensitivity of the
digest is exact rather than merely overwhelmingly probable. -/
def hashHunks (hunks : List Hunk) : List String :=
  hunks.flatMap (fun h => h.header :: h.lines.map (fun l => l.type ++ l.content))

/-- Diff stats derived from the hunks: counts of added and deleted lines. -/
def statsOf (hunks : List Hunk) : DiffStats :=
  { additions := (hunks.map (fun h => (h.lines.filter isAdded).length)).sum
    deletions := (hunks.map (fun h => (h.lines.filter isDeleted).length)).sum }

/-- Modelled from the spec: the synthetic whole-file hunk.  For an added
file with N content lines, oldStart=0, oldLines=0, newStart=1, newLines=N
and every line tagged added; for a deleted file the mirror image with
every line tagged deleted. -/
def syntheticHunk (status : String) (contentLines : List String) : Hunk :=
  if status = "added" then
    { header := "@@ -0,0 +1," ++ toString contentLines.length ++ " @@"
      oldStart := 0, oldLines := 0
      newStart := 1, newLines := contentLines.length
      lines := contentLines.enum.map (fun ic =>
        { type := "added", content := ic.2
          oldLineNum := none, newLineNum := some (ic.1 + 1)
          highlights := [] }) }
  else
    { header := "@@ -1," ++ toString contentLines.length ++ " +0,0 @@"
      oldStart := 1, oldLines := contentLines.length
      newStart := 0, newLines := 0
      lines := contentLines.enum.map (fun ic =>
        { type := "deleted", content := ic.2
          oldLineNum := some (ic.1 + 1), newLineNum := none
          highlights := [] }) }

/-- Modelled from the spec: the diff builder.  Given the parsed hunks of
the raw diff text for a file (empty when the version-control layer
returned no hunk body) and the file content lines, it applies the
synthetic-diff rule for added and deleted files with no hunks and derives
the content hash and stats from the resulting hunks. -/
def buildFileDiff (path status : String) (rawHunks : List Hunk)
    (contentLines : List String) : FileDiff :=
  let hunks :=
    if rawHunks.isEmpty ∧ (status = "added" ∨ status = "deleted") then
      [syntheticHunk status contentLines]
    else rawHunks
  { path := path, hunks := hunks
    contentHash := hashHunks hunks
    stats := statsOf hunks }

/-- C8: synthetic diff completeness.  For a file of status added with no
hunk body and non-empty content of N lines, the built diff has exactly one
hunk with oldStart=0, oldLines=0, newStart=1, newLines=N and all N lines
tagged added carrying the content in order; for status deleted, the mirror
image with every line tagged deleted. -/
theorem synthetic_diff_completeness (path : String) (cs : List String)
    (hne : cs ≠ []) :
    ((buildFileDiff path "added" [] cs).hunks.length = 1
    ∧ ∀ hk ∈ (buildFileDiff path "added" [] cs).hunks,
        hk.oldStart = 0 ∧ hk.oldLines = 0 ∧ hk.newStart = 1
        ∧ hk.newLines = cs.length ∧ hk.lines.length = cs.length
        ∧ (∀ l ∈ hk.lines, l.type = "added")
        ∧ hk.lines.map (fun l => l.content) = cs)
    ∧ ((buildFileDiff path "deleted" [] cs).hunks.length = 1
    ∧ ∀ hk ∈ (buildFileDiff path "deleted" [] cs).hunks,
        hk.oldStart = 1 ∧ hk.oldLines = cs.length ∧ hk.newStart = 0
        ∧ hk.newLines = 0 ∧ hk.lines.length = cs.length
        ∧ (∀ l ∈ hk.lines, l.type = "deleted")
        ∧ hk.lines.map (fun l => l.content) = cs) := by
  constructor
  · constructor
    · rfl
    · intro hk hmem
      have hhunks : (buildFileDiff path "added" [] cs).hunks =
          [syntheticHunk "added" cs] := rfl
      rw [hhunks, List.mem_singleton] at hmem
      subst hmem
      simp [syntheticHunk]
      refine ⟨?_, ?_⟩
      · rintro l x y hxy rfl
        rfl
      · rw [show ((fun l : DiffLine => l.content) ∘ fun ic : Nat × String =>
            ({ type := "added", content := ic.2, oldLineNum := none,
               newLineNum := some (ic.1 + 1), highlights := [] } : DiffLine)) =
            Prod.snd from rfl, List.enum_map_snd]
  · constructor
    · rfl
    · intro hk hmem
      have hhunks : (buildFileDiff path "deleted" [] cs).hunks =
          [syntheticHunk "deleted" cs] := rfl
      rw [hhunks, List.mem_singleton] at hmem
      subst hmem
      simp [syntheticHunk]
      refine ⟨?_, ?_⟩
      · rintro l x y hxy rfl
        rfl
      · rw [show ((fun l : DiffLine => l.content) ∘ fun ic : Nat × String =>
            ({ type := "deleted", content := ic.2,
               oldLineNum := some (ic.1 + 1), newLineNum := none,
               highlights := [] } : DiffLine)) =
            Prod.snd from rfl, List.enum_map_snd]

/-- Witness for C8: the two-line content file. -/
theorem synthetic_diff_completeness_witness :
    (buildFileDiff "a.txt" "added" [] ["line1", "line2"]).hunks.length = 1
    ∧ (buildFileDiff "a.txt" "deleted" [] ["line1", "line2"]).hunks.length = 1 :=
  ⟨(synthetic_diff_completeness "a.txt" ["line1", "line2"] (by decide)).1.1,
   (synthetic_diff_completeness "a.txt" ["line1", "line2"] (by decide)).2.1⟩

/-- Cancel a common prefix and suffix around differing middles. -/
theorem append_middle_cancel {α : Type} (p s x y : List α)
    (h : p ++ x ++ s = p ++ y ++ s) : x = y :=
  List.append_cancel_left (List.append_cancel_right h)

/-- The serialization of one hunk: its header followed by the tagged
lines. -/
theorem hashHunks_append (l1 l2 : List Hunk) :
    hashHunks (l1 ++ l2) = hashHunks l1 ++ hashHunks l2 := by
  simp [hashHunks]

/-- C9: hash determinism.  Two diffs built from identical hunk data (the
deterministic parse of byte-identical hunk text) have identical content
hashes whatever the file path; and two builds whose hunk data differ in a
single line - same hunk structure, same headers, one line whose type tag
plus content differs - have different content hashes. -/
theorem contentHash_determinism :
    (∀ p1 p2 st (rawHunks : List Hunk) (cs : List String),
      (buildFileDiff p1 st rawHunks cs).contentHash =
        (buildFileDiff p2 st rawHunks cs).contentHash)
    ∧ (∀ p st (cs : List String) (pre post : List Hunk) (hk1 hk2 : Hunk)
        (lpre lpost : List DiffLine) (l1 l2 : DiffLine),
        hk1.header = hk2.header →
        hk1.lines = lpre ++ l1 :: lpost →
        hk2.lines = lpre ++ l2 :: lpost →
        l1.type ++ l1.content ≠ l2.type ++ l2.content →
        (buildFileDiff p st (pre ++ hk1 :: post) cs).contentHash ≠
          (buildFileDiff p st (pre ++ hk2 :: post) cs).contentHash) := by
  have hch : ∀ (hks : List Hunk), hks.isEmpty = false → ∀ p st cs,
      (buildFileDiff p st hks cs).contentHash = hashHunks hks := by
    intro hks h p st cs
    simp [buildFileDiff, h]
  constructor
  · intro p1 p2 st rawHunks cs
    rfl
  · intro p st cs pre post hk1 hk2 lpre lpost l1 l2 hhd hl1 hl2 hne heq
    have hemp1 : (pre ++ hk1 :: post).isEmpty = false := by
      cases pre <;> rfl
    have hemp2 : (pre ++ hk2 :: post).isEmpty = false := by
      cases pre <;> rfl
    rw [hch _ hemp1, hch _ hemp2] at heq
    rw [hashHunks_append, hashHunks_append] at heq
    have hmid : hashHunks [hk1] = hashHunks [hk2] := by
      have e1 : hashHunks (hk1 :: post) = hashHunks [hk1] ++ hashHunks post := by
        simpa using hashHunks_append [hk1] post
      have e2 : hashHunks (hk2 :: post) = hashHunks [hk2] ++ hashHunks post := by
        simpa using hashHunks_append [hk2] post
      rw [e1, e2, ← List.append_assoc, ← List.append_assoc] at heq
      exact append_middle_cancel _ _ _ _ heq
    simp only [hashHunks, List.flatMap_cons, List.flatMap_nil,
      List.append_nil, hhd, hl1, hl2, List.map_append, List.map_cons] at hmid
    have htail := (List.cons.injEq _ _ _ _).mp hmid
    have hmapeq := List.append_cancel_left htail.2
    have := (List.cons.injEq _ _ _ _).mp hmapeq
    exact hne this.1

/-- Witness for C9: two one-hunk diffs equal except for the content of
their single line hash differently. -/
theorem contentHash_determinism_witness :
    (buildFileDiff "p" "modified"
        [{ header := "@@ -1,1 +1,1 @@", oldStart := 1, oldLines := 1
           newStart := 1, newLines := 1, lines := [delLine "x"] }] []).contentHash ≠
      (buildFileDiff "p" "modified"
        [{ header := "@@ -1,1 +1,1 @@", oldStart := 1, oldLines := 1
           newStart := 1, newLines := 1, lines := [delLine "y"] }] []).contentHash :=
  contentHash_determinism.2 "p" "modified" [] [] []
    { header := "@@ -1,1 +1,1 @@", oldStart := 1, oldLines := 1
      newStart := 1, newLines := 1, lines := [delLine "x"] }
    { header := "@@ -1,1 +1,1 @@", oldStart := 1, oldLines := 1
      newStart := 1, newLines := 1, lines := [delLine "y"] }
    [] [] (delLine "x") (delLine "y") rfl rfl rfl (by decide)

end Revi
